import Mathlib

/-!
# Node label controller: the reconciliation procedure

A shallow embedding of `controllers/node_controller.go`.

Modelling conventions.

* A Go `string` is modelled by a Lean `String`, that is by the sequence of
  Unicode scalar values it encodes (the OS image and the label keys are API
  strings holding valid UTF-8). A `rune` of such a string is a `Char`.
* The Go standard-library functions the controller calls (`strings.ReplaceAll`,
  `strings.ToLower`, `unicode.ToLower`, `fmt.Sprintf` with one `%s` verb) are
  embedded from their Go sources. The Unicode case table consulted by
  `unicode.To(unicode.LowerCase, r)` for runes above `unicode.MaxASCII` is not
  reproduced: it is a parameter `caseTable : Char → Char`.
* The API client embedded in `NodeReconciler` is a parameter: a state type, a
  `Get` that reads it and an `Update` that may change it, over an arbitrary
  error type with the two classifiers `apierrors.IsNotFound` and
  `apierrors.IsConflict`.
* Logging has no effect on the result and is left out.
-/

namespace NodeLabelController

/-! ## Constants of the package -/

/-- The format constant `addOSLabel`. -/
def addOSLabel : String := "k8c.io/uses-%s"

/-- The label value constant `trueValue`. -/
def trueValue : String := "true"

/-! ## `unicode` and `strings` -/

namespace unicode

/-- The constant `unicode.MaxASCII`. -/
def MaxASCII : Nat := 0x7F

/-- The function `unicode.ToLower`: a rune up to `MaxASCII` is handled inline
(`'A'..'Z'` are shifted by `'a' - 'A'`), any other rune is looked up in the case
table, `To(LowerCase, r)`. -/
def ToLower (caseTable : Char → Char) (r : Char) : Char :=
  if r.toNat ≤ MaxASCII then
    if 'A' ≤ r ∧ r ≤ 'Z' then Char.ofNat (r.toNat + ('a'.toNat - 'A'.toNat)) else r
  else caseTable r

end unicode

namespace utf8

/-- The constant `utf8.RuneSelf`: runes below it are single bytes. -/
def RuneSelf : Nat := 0x80

end utf8

namespace strings

/-- The function `strings.Map` on the runes of a valid UTF-8 string, for a
mapping that never returns a negative rune. -/
def Map (mapping : Char → Char) (s : List Char) : List Char :=
  s.map mapping

/-- The byte loop of the ASCII fast path of `strings.ToLower`. -/
def lowerASCII (s : List Char) : List Char :=
  s.map fun c => if 'A' ≤ c ∧ c ≤ 'Z' then Char.ofNat (c.toNat + ('a'.toNat - 'A'.toNat)) else c

/-- The function `strings.ToLower` on the runes of a string: the ASCII fast path
(returning the string itself when it holds no upper-case letter), and
`Map(unicode.ToLower, s)` otherwise. -/
def ToLowerRunes (caseTable : Char → Char) (s : List Char) : List Char :=
  let isASCII := s.all fun c => decide (c.toNat < utf8.RuneSelf)
  let hasUpper := s.any fun c => decide ('A' ≤ c ∧ c ≤ 'Z')
  if isASCII then
    if !hasUpper then s else lowerASCII s
  else Map (unicode.ToLower caseTable) s

/-- The function `strings.ToLower`. -/
def ToLower (caseTable : Char → Char) (s : String) : String :=
  ⟨ToLowerRunes caseTable s.data⟩

/-- Whether `old` is a leading segment of `s`. -/
def startsWith : List Char → List Char → Bool
  | _, [] => true
  | [], _ :: _ => false
  | c :: s, d :: old => c == d && startsWith s old

/-- The replacement loop of `strings.Replace` with `n < 0` and a non-empty `old`:
scanning from the left, every occurrence of `old` that does not overlap the
previous one is replaced by `new`. `skip` counts the runes of the occurrence
just replaced that are still to be passed over. -/
def replaceLoop (old new : List Char) : Nat → List Char → List Char
  | _, [] => []
  | skip + 1, _ :: s => replaceLoop old new skip s
  | 0, c :: s =>
    if startsWith (c :: s) old then new ++ replaceLoop old new (old.length - 1) s
    else c :: replaceLoop old new 0 s

/-- The function `strings.ReplaceAll` on the runes of a string. With an empty
`old` the replacement is inserted before every rune and at the end. -/
def ReplaceAllRunes (s old new : List Char) : List Char :=
  if old = new then s
  else if old = [] then new ++ s.flatMap fun c => c :: new
  else replaceLoop old new 0 s

/-- The function `strings.ReplaceAll`. -/
def ReplaceAll (s old new : String) : String :=
  ⟨ReplaceAllRunes s.data old.data new.data⟩

end strings

namespace fmt

/-- The function `fmt.Sprintf` for a format holding plain text and `%s` verbs,
each verb consuming the next string argument; a verb left without an argument
prints `%!s(MISSING)`. -/
def sprintfRunes : List Char → List String → List Char
  | '%' :: 's' :: rest, a :: args => a.data ++ sprintfRunes rest args
  | '%' :: 's' :: rest, [] => "%!s(MISSING)".data ++ sprintfRunes rest []
  | c :: rest, args => c :: sprintfRunes rest args
  | [], _ => []

/-- The function `fmt.Sprintf` with string arguments. -/
def Sprintf (format : String) (args : List String) : String :=
  ⟨sprintfRunes format.data args⟩

end fmt

/-! ## The derived OS name and label key -/

/-- The local `nodeOS` of `Reconcile`:
`strings.ToLower(strings.ReplaceAll(osImage, " ", ""))`. -/
def nodeOS (caseTable : Char → Char) (osImage : String) : String :=
  strings.ToLower caseTable (strings.ReplaceAll osImage " " "")

/-- The label key of `Reconcile`: `fmt.Sprintf(addOSLabel, nodeOS)`. -/
def labelKey (caseTable : Char → Char) (osImage : String) : String :=
  fmt.Sprintf addOSLabel [nodeOS caseTable osImage]

/-- The lower-casing of one rune as the specification means it, written
without the functions of the code: the library `Char.toLower` on a rune up to
`0x7F`, the Unicode case table on any other. -/
def specLowerRune (caseTable : Char → Char) (c : Char) : Char :=
  if c.toNat ≤ 0x7F then c.toLower else caseTable c

/-- The key the specification describes: the text `k8c.io/uses-` followed by
`lowercase(s)` with all space characters removed, that is every rune of `s`
lower-cased, in order, and then the spaces dropped. -/
def specLabelKey (caseTable : Char → Char) (osImage : String) : String :=
  "k8c.io/uses-" ++
    String.mk ((osImage.data.map (specLowerRune caseTable)).filter fun c => c != ' ')

/-! ## Kubernetes objects and the controller-runtime types -/

/-- A non-nil Go `map[string]string`: the value stored under each key, if any. -/
abbrev StringMap := String → Option String

/-- The value of `make(map[string]string)`. -/
def emptyMap : StringMap := fun _ => none

/-- The index expression `m[k]` on a map that may be nil: a nil map and a missing
key both yield the zero value `""`. -/
def mapIndex (m : Option StringMap) (k : String) : String :=
  match m with
  | none => ""
  | some f => (f k).getD ""

/-- The assignment `m[k] = v` on a non-nil map. -/
def mapAssign (m : StringMap) (k v : String) : StringMap :=
  fun k' => if k' = k then some v else m k'

/-- The fields of `metav1.ObjectMeta` (an excerpt); `Labels = none` is the nil map. -/
structure ObjectMeta where
  Name : String
  Namespace : String
  UID : String
  ResourceVersion : String
  Labels : Option StringMap
  Annotations : Option StringMap

/-- The fields of `corev1.NodeSpec` (an excerpt). -/
structure NodeSpec where
  PodCIDR : String
  ProviderID : String
  Unschedulable : Bool

/-- The fields of `corev1.NodeSystemInfo` (an excerpt). -/
structure NodeSystemInfo where
  MachineID : String
  KernelVersion : String
  OSImage : String
  OperatingSystem : String
  Architecture : String

/-- The fields of `corev1.NodeStatus` (an excerpt). -/
structure NodeStatus where
  NodeInfo : NodeSystemInfo

/-- The type `corev1.Node`. -/
structure Node where
  ObjectMeta : ObjectMeta
  Spec : NodeSpec
  Status : NodeStatus

/-- The type `types.NamespacedName`. -/
structure NamespacedName where
  Namespace : String
  Name : String

/-- The type `ctrl.Request`. -/
structure Request where
  NamespacedName : NamespacedName

/-- The type `ctrl.Result`; its zero value is `{}`. -/
structure Result where
  Requeue : Bool := false
  RequeueAfter : Nat := 0

/-- The two methods of `client.Client` that `Reconcile` calls, over a cluster
state `σ` and an error type `E`. `Get` reads the state; `Update` returns the new
state and the error, `none` for nil. -/
structure Client (σ E : Type) where
  Get : σ → NamespacedName → Except E Node
  Update : σ → Node → σ × Option E

/-- The two classifiers of package `apierrors` that `Reconcile` calls. -/
structure APIErrors (E : Type) where
  IsNotFound : E → Bool
  IsConflict : E → Bool

/-- The type `NodeReconciler` (the unused `Scheme` left out). -/
structure NodeReconciler (σ E : Type) where
  Client : Client σ E

/-- What one call of `Reconcile` does: the pair it returns (`err = none` is the
nil error), the nodes it passed to `Update`, in order, and the cluster state it
leaves. -/
structure Outcome (σ E : Type) where
  result : Result
  err : Option E
  updates : List Node
  state : σ

/-- Lines 90 to 95 of `Reconcile`: a nil `Labels` is replaced by an empty map,
then the label key is assigned `trueValue` in it. -/
def setOSLabel (caseTable : Char → Char) (node : Node) : Node :=
  let nodeOS := strings.ToLower caseTable
    (strings.ReplaceAll node.Status.NodeInfo.OSImage " " "")
  let labels : StringMap :=
    match node.ObjectMeta.Labels with
    | none => emptyMap
    | some m => m
  { node with ObjectMeta := { node.ObjectMeta with
      Labels := some (mapAssign labels (fmt.Sprintf addOSLabel [nodeOS]) trueValue) } }

/-- The method `NodeReconciler.Reconcile`. -/
def Reconcile {σ E : Type} (caseTable : Char → Char) (apierrors : APIErrors E)
    (r : NodeReconciler σ E) (st : σ) (req : Request) : Outcome σ E :=
  match r.Client.Get st req.NamespacedName with
  | .error err =>
    if apierrors.IsNotFound err then
      { result := {}, err := none, updates := [], state := st }
    else
      { result := {}, err := some err, updates := [], state := st }
  | .ok node =>
    let nodeOS := strings.ToLower caseTable
      (strings.ReplaceAll node.Status.NodeInfo.OSImage " " "")
    let labelIsPresent :=
      mapIndex node.ObjectMeta.Labels (fmt.Sprintf addOSLabel [nodeOS]) == trueValue
    if labelIsPresent then
      { result := {}, err := none, updates := [], state := st }
    else
      let node := setOSLabel caseTable node
      match r.Client.Update st node with
      | (st', some err) =>
        if apierrors.IsConflict err then
          { result := { Requeue := true }, err := none, updates := [node], state := st' }
        else if apierrors.IsNotFound err then
          { result := { Requeue := true }, err := none, updates := [node], state := st' }
        else
          { result := {}, err := some err, updates := [node], state := st' }
      | (st', none) =>
        { result := {}, err := none, updates := [node], state := st' }

/-! ## Validity of a label key -/

/-- An ASCII letter or digit, the class `[A-Za-z0-9]`. -/
def isAlnum (c : Char) : Bool :=
  decide (('a' ≤ c ∧ c ≤ 'z') ∨ ('A' ≤ c ∧ c ≤ 'Z') ∨ ('0' ≤ c ∧ c ≤ '9'))

/-- A character allowed inside the name part, the class `[-A-Za-z0-9_.]`. -/
def isNameChar (c : Char) : Bool :=
  isAlnum c || c == '-' || c == '_' || c == '.'

/-- A valid name part: at most 63 characters, all of them alphanumerics, `-`,
`_` or `.`, the first and the last alphanumeric (so it is not empty). -/
def validNamePart (name : List Char) : Bool :=
  decide (name.length ≤ 63) && name.all isNameChar &&
    (name.head?.map isAlnum).getD false && (name.getLast?.map isAlnum).getD false

/-- A valid label key in the label namespace of the controller: the text
`k8c.io`, a slash, and a valid name part. -/
def validLabelKey (key : String) : Bool :=
  strings.startsWith key.data "k8c.io/".data &&
    validNamePart (key.data.drop "k8c.io/".data.length)

/-! ## A store kept in memory, for the scenarios -/

/-- The errors of the in-memory store. -/
inductive StoreError where
  | notFound (name : String)
  | conflict (name : String)
  | invalid (message : String)
  | unavailable (message : String)
  deriving DecidableEq

/-- The classifiers on the errors of the in-memory store. -/
def storeErrors : APIErrors StoreError where
  IsNotFound := fun e => match e with
    | .notFound _ => true
    | _ => false
  IsConflict := fun e => match e with
    | .conflict _ => true
    | _ => false

/-- The state of the in-memory store: the nodes by name, and the error the next
read or the next write is made to fail with, if any. -/
structure Store where
  nodes : String → Option Node
  getFault : Option StoreError
  updateFault : Option StoreError

/-- The client of the in-memory store. A read of an absent node is not-found; a
write replaces the stored node of the same name. -/
def storeClient : Client Store StoreError where
  Get := fun st key =>
    match st.getFault with
    | some e => .error e
    | none =>
      match st.nodes key.Name with
      | some node => .ok node
      | none => .error (.notFound key.Name)
  Update := fun st node =>
    match st.updateFault with
    | some e => (st, some e)
    | none =>
      match st.nodes node.ObjectMeta.Name with
      | some _ =>
        ({ st with nodes := fun k => if k = node.ObjectMeta.Name then some node else st.nodes k },
          none)
      | none => (st, some (.notFound node.ObjectMeta.Name))

/-- The reconciler over the in-memory store. -/
def storeReconciler : NodeReconciler Store StoreError := { Client := storeClient }

/-- An excerpt of the Unicode lower-case table, for the scenarios: `É`, the
Kelvin sign and `İ`. -/
def sampleCaseTable (r : Char) : Char :=
  if r = 'É' then 'é'
  else if r.toNat = 0x212A then 'k'
  else if r.toNat = 0x0130 then 'i'
  else r

/-- A node named `name` reporting `osImage`, carrying `labels`. -/
def mkNode (name osImage : String) (labels : Option StringMap) : Node where
  ObjectMeta :=
    { Name := name, Namespace := "", UID := "", ResourceVersion := "1",
      Labels := labels, Annotations := none }
  Spec := { PodCIDR := "", ProviderID := "", Unschedulable := false }
  Status := { NodeInfo :=
    { MachineID := "", KernelVersion := "", OSImage := osImage,
      OperatingSystem := "linux", Architecture := "amd64" } }

/-- A store holding the single node `node`, with no fault. -/
def storeOf (node : Node) : Store where
  nodes := fun k => if k = node.ObjectMeta.Name then some node else none
  getFault := none
  updateFault := none

/-- The request for the node named `name`. -/
def requestFor (name : String) : Request :=
  { NamespacedName := { Namespace := "", Name := name } }

/-- The labels `{"k8c.io/uses-flatcarcontainerlinuxbykinvolk": "true"}`. -/
def flatcarLabels : StringMap :=
  mapAssign emptyMap "k8c.io/uses-flatcarcontainerlinuxbykinvolk" "true"

/-! ## Lemmas on the string functions -/

theorem unicode_ToLower_ascii (t : Char → Char) (c : Char) (h : c.toNat < utf8.RuneSelf) :
    unicode.ToLower t c =
      if 'A' ≤ c ∧ c ≤ 'Z' then Char.ofNat (c.toNat + ('a'.toNat - 'A'.toNat)) else c := by
  have h1 : c.toNat ≤ unicode.MaxASCII := by
    simp only [utf8.RuneSelf, unicode.MaxASCII] at *; omega
  simp only [unicode.ToLower, h1, if_true]

theorem not_upper_of_all (s : List Char)
    (h : (s.any fun c => decide ('A' ≤ c ∧ c ≤ 'Z')) = false) :
    strings.lowerASCII s = s := by
  induction s with
  | nil => rfl
  | cons c s ih =>
    simp only [List.any_cons, Bool.or_eq_false_iff, decide_eq_false_iff_not] at h
    simp only [strings.lowerASCII, List.map_cons, if_neg h.1] at ih ⊢
    rw [ih h.2]

theorem lowerASCII_eq_map (t : Char → Char) (s : List Char)
    (h : (s.all fun c => decide (c.toNat < utf8.RuneSelf)) = true) :
    strings.lowerASCII s = s.map (unicode.ToLower t) := by
  induction s with
  | nil => rfl
  | cons c s ih =>
    simp only [List.all_cons, Bool.and_eq_true, decide_eq_true_eq] at h
    simp only [strings.lowerASCII, List.map_cons] at ih ⊢
    rw [ih h.2, unicode_ToLower_ascii t c h.1]

/-- Whichever path `strings.ToLower` takes, the result is the rune-wise image
under `unicode.ToLower`. -/
theorem ToLowerRunes_eq_map (t : Char → Char) (s : List Char) :
    strings.ToLowerRunes t s = s.map (unicode.ToLower t) := by
  unfold strings.ToLowerRunes
  simp only
  by_cases ha : (s.all fun c => decide (c.toNat < utf8.RuneSelf)) = true
  · rw [if_pos ha]
    by_cases hu : (s.any fun c => decide ('A' ≤ c ∧ c ≤ 'Z')) = true
    · simp only [hu, Bool.not_true, Bool.false_eq_true, if_false]
      exact lowerASCII_eq_map t s ha
    · have hu2 : (s.any fun c => decide ('A' ≤ c ∧ c ≤ 'Z')) = false := by
        simpa using hu
      simp only [hu2, Bool.not_false, if_true]
      rw [← lowerASCII_eq_map t s ha, not_upper_of_all s hu2]
  · rw [if_neg ha]; rfl

theorem replaceLoop_space (s : List Char) :
    strings.replaceLoop [' '] [] 0 s = s.filter fun c => c != ' ' := by
  induction s with
  | nil => rfl
  | cons c s ih =>
    by_cases hc : c = ' '
    · subst hc
      simp [strings.replaceLoop, strings.startsWith, ih]
    · have : (c == ' ') = false := by simpa using hc
      simp [strings.replaceLoop, strings.startsWith, ih, this, hc]

/-- Replacing every `" "` by `""` keeps exactly the runes that are not a space. -/
theorem ReplaceAllRunes_space (s : List Char) :
    strings.ReplaceAllRunes s " ".data "".data = s.filter fun c => c != ' ' := by
  have h1 : " ".data = [' '] := rfl
  have h2 : "".data = [] := rfl
  rw [h1, h2]
  unfold strings.ReplaceAllRunes
  rw [if_neg (by simp), if_neg (by simp)]
  exact replaceLoop_space s

theorem Sprintf_addOSLabel (x : String) :
    fmt.Sprintf addOSLabel [x] = "k8c.io/uses-" ++ x := by
  have h : fmt.sprintfRunes addOSLabel.data [x] = "k8c.io/uses-".data ++ (x.data ++ []) := rfl
  apply String.ext
  rw [String.data_append, fmt.Sprintf, h, List.append_nil]

theorem upper_bounds (c : Char) (h : 'A' ≤ c ∧ c ≤ 'Z') : 65 ≤ c.toNat ∧ c.toNat ≤ 90 := by
  obtain ⟨h1, h2⟩ := h
  rw [Char.le_def] at h1 h2
  exact ⟨h1, h2⟩

theorem upper_of_bounds (c : Char) (h : 65 ≤ c.toNat ∧ c.toNat ≤ 90) : 'A' ≤ c ∧ c ≤ 'Z' := by
  obtain ⟨h1, h2⟩ := h
  rw [Char.le_def, Char.le_def]
  exact ⟨h1, h2⟩

theorem ofNat_shift_ne_space (n : Nat) (h1 : 65 ≤ n) (h2 : n ≤ 90) :
    Char.ofNat (n + ('a'.toNat - 'A'.toNat)) ≠ ' ' := by
  interval_cases n <;> decide

/-- A rune lower-cases to a space only if it is a space, provided the case
table maps no rune above `MaxASCII` to a space. -/
theorem unicode_ToLower_eq_space (t : Char → Char)
    (ht : ∀ r : Char, unicode.MaxASCII < r.toNat → t r ≠ ' ') (c : Char) :
    unicode.ToLower t c = ' ' ↔ c = ' ' := by
  unfold unicode.ToLower
  by_cases h1 : c.toNat ≤ unicode.MaxASCII
  · rw [if_pos h1]
    by_cases h2 : 'A' ≤ c ∧ c ≤ 'Z'
    · rw [if_pos h2]
      have hb := upper_bounds c h2
      constructor
      · intro h; exact absurd h (ofNat_shift_ne_space c.toNat hb.1 hb.2)
      · intro h; subst h; exact absurd hb.1 (by decide)
    · rw [if_neg h2]
  · rw [if_neg h1]
    constructor
    · intro h; exact absurd h (ht c (by omega))
    · intro h; subst h; exact absurd (by decide) h1

/-- The rune function of the code, `unicode.ToLower`, is the lower-casing of the
specification. -/
theorem unicode_ToLower_eq_specLowerRune (t : Char → Char) :
    unicode.ToLower t = specLowerRune t := by
  funext c
  unfold unicode.ToLower specLowerRune unicode.MaxASCII Char.toLower
  by_cases h1 : c.toNat ≤ 0x7F
  · rw [if_pos h1, if_pos h1]
    by_cases h2 : 'A' ≤ c ∧ c ≤ 'Z'
    · have hb := upper_bounds c h2
      rw [if_pos h2]
      simp only [ge_iff_le, hb.1, hb.2, and_self, if_true]
      rfl
    · have hb : ¬ (65 ≤ c.toNat ∧ c.toNat ≤ 90) := fun h => h2 (upper_of_bounds c h)
      rw [if_neg h2]
      simp only [ge_iff_le, hb, if_false]
  · rw [if_neg h1, if_neg h1]

theorem filter_map_ToLower (t : Char → Char)
    (ht : ∀ r : Char, unicode.MaxASCII < r.toNat → t r ≠ ' ') (s : List Char) :
    ((s.filter fun c => c != ' ').map (unicode.ToLower t)) =
      (s.map (unicode.ToLower t)).filter fun c => c != ' ' := by
  induction s with
  | nil => rfl
  | cons c s ih =>
    by_cases hc : c = ' '
    · have hl : unicode.ToLower t c = ' ' := (unicode_ToLower_eq_space t ht c).2 hc
      rw [List.map_cons, List.filter_cons, List.filter_cons, hl]
      simp only [hc, bne_self_eq_false, Bool.false_eq_true, if_false]
      exact ih
    · have hl : unicode.ToLower t c ≠ ' ' := fun h => hc ((unicode_ToLower_eq_space t ht c).1 h)
      simp [hc, hl, ih]

theorem nodeOS_data (t : Char → Char) (s : String) :
    (nodeOS t s).data = (s.data.filter fun c => c != ' ').map (unicode.ToLower t) := by
  have h := ReplaceAllRunes_space s.data
  simp only [nodeOS, strings.ToLower, strings.ReplaceAll, ToLowerRunes_eq_map, h]

theorem labelKey_eq (t : Char → Char) (s : String) :
    labelKey t s = "k8c.io/uses-" ++ nodeOS t s := by
  simp only [labelKey, Sprintf_addOSLabel]

/-! ## Lemmas on `Reconcile` -/

section reconcile
variable {σ E : Type} (t : Char → Char) (api : APIErrors E) (r : NodeReconciler σ E)
  (st : σ) (req : Request)

theorem Reconcile_get_error (e : E) (hget : r.Client.Get st req.NamespacedName = .error e) :
    Reconcile t api r st req =
      if api.IsNotFound e then { result := {}, err := none, updates := [], state := st }
      else { result := {}, err := some e, updates := [], state := st } := by
  simp only [Reconcile, hget]

theorem Reconcile_present (node : Node)
    (hget : r.Client.Get st req.NamespacedName = .ok node)
    (hp : mapIndex node.ObjectMeta.Labels (labelKey t node.Status.NodeInfo.OSImage) = trueValue) :
    Reconcile t api r st req = { result := {}, err := none, updates := [], state := st } := by
  unfold labelKey nodeOS at hp
  simp only [Reconcile, hget, hp, beq_self_eq_true, if_true]

theorem Reconcile_absent (node : Node)
    (hget : r.Client.Get st req.NamespacedName = .ok node)
    (hn : mapIndex node.ObjectMeta.Labels (labelKey t node.Status.NodeInfo.OSImage) ≠ trueValue) :
    Reconcile t api r st req =
      match r.Client.Update st (setOSLabel t node) with
      | (st', some err) =>
        if api.IsConflict err then
          { result := { Requeue := true }, err := none, updates := [setOSLabel t node],
            state := st' }
        else if api.IsNotFound err then
          { result := { Requeue := true }, err := none, updates := [setOSLabel t node],
            state := st' }
        else
          { result := {}, err := some err, updates := [setOSLabel t node], state := st' }
      | (st', none) =>
        { result := {}, err := none, updates := [setOSLabel t node], state := st' } := by
  unfold labelKey nodeOS at hn
  have hb : (mapIndex node.ObjectMeta.Labels (fmt.Sprintf addOSLabel
      [strings.ToLower t (strings.ReplaceAll node.Status.NodeInfo.OSImage " " "")])
      == trueValue) = false := by
    simpa using hn
  simp only [Reconcile, hget, hb, Bool.false_eq_true, if_false]

theorem setOSLabel_labels (node : Node) :
    (setOSLabel t node).ObjectMeta.Labels =
      some (mapAssign (node.ObjectMeta.Labels.getD emptyMap)
        (labelKey t node.Status.NodeInfo.OSImage) trueValue) := by
  unfold labelKey nodeOS setOSLabel
  cases h : node.ObjectMeta.Labels <;> simp [h, Option.getD]

theorem setOSLabel_frame (node : Node) :
    { setOSLabel t node with ObjectMeta :=
        { (setOSLabel t node).ObjectMeta with Labels := node.ObjectMeta.Labels } } = node := by
  rfl

theorem mapIndex_setOSLabel (node : Node) :
    mapIndex (setOSLabel t node).ObjectMeta.Labels (labelKey t node.Status.NodeInfo.OSImage)
      = trueValue := by
  rw [setOSLabel_labels]
  simp [mapIndex, mapAssign]

theorem mapIndex_setOSLabel_of_ne (node : Node) (k : String)
    (hk : k ≠ labelKey t node.Status.NodeInfo.OSImage) :
    mapIndex (setOSLabel t node).ObjectMeta.Labels k = mapIndex node.ObjectMeta.Labels k := by
  rw [setOSLabel_labels]
  cases h : node.ObjectMeta.Labels <;> simp [mapIndex, mapAssign, hk, emptyMap]

end reconcile

theorem sampleCaseTable_ne_space (r : Char) (hr : unicode.MaxASCII < r.toNat) :
    sampleCaseTable r ≠ ' ' := by
  unfold sampleCaseTable
  split_ifs with h1 h2 h3
  · decide
  · decide
  · decide
  · intro h
    rw [h] at hr
    exact absurd hr (by decide)

/-! ## The claims -/

/-- C1: for every OS image string `s`, the label key computed by `Reconcile`
(spaces stripped, then lower-cased, then formatted with `addOSLabel`) is
`"k8c.io/uses-"` followed by the rune-wise lower-casing of `s` with its spaces
removed; stripping then lower-casing (the order of the code) gives the same
string as lower-casing then stripping; for `"Ubuntu 22.04.1 LTS"` the key is
`"k8c.io/uses-ubuntu22.04.1lts"`, and a rune above `MaxASCII`, such as `É`, is
replaced by its entry in the case table. The case table is assumed to map no
rune above `MaxASCII` to a space. -/
theorem labelKey_eq_specLabelKey (t : Char → Char)
    (ht : ∀ r : Char, unicode.MaxASCII < r.toNat → t r ≠ ' ') :
    (∀ s : String, labelKey t s = specLabelKey t s) ∧
    (∀ s : String, (labelKey t s).data =
      "k8c.io/uses-".data ++ (s.data.map (specLowerRune t)).filter fun c => c != ' ') ∧
    (∀ s : String, strings.ToLower t (strings.ReplaceAll s " " "") =
      strings.ReplaceAll (strings.ToLower t s) " " "") ∧
    labelKey t "Ubuntu 22.04.1 LTS" = "k8c.io/uses-ubuntu22.04.1lts" ∧
    (labelKey t "Red Hat É 8").data = "k8c.io/uses-redhat".data ++ t 'É' :: ['8'] := by
  have hcomm : ∀ s : String, strings.ToLower t (strings.ReplaceAll s " " "") =
      strings.ReplaceAll (strings.ToLower t s) " " "" := by
    intro s
    apply String.ext
    have h1 := ReplaceAllRunes_space s.data
    have h2 := ReplaceAllRunes_space (s.data.map (unicode.ToLower t))
    simp only [strings.ToLower, strings.ReplaceAll, ToLowerRunes_eq_map, h1, h2]
    exact filter_map_ToLower t ht s.data
  have hdata : ∀ s : String, (labelKey t s).data =
      "k8c.io/uses-".data ++ (s.data.map (specLowerRune t)).filter fun c => c != ' ' := by
    intro s
    rw [labelKey_eq, String.data_append, nodeOS_data, filter_map_ToLower t ht,
      unicode_ToLower_eq_specLowerRune]
  refine ⟨?_, hdata, hcomm, rfl, rfl⟩
  intro s
  apply String.ext
  rw [hdata, specLabelKey, String.data_append]

/-- Witness of C1 at the sample case table and an OS image holding `É` and a
Kelvin sign: the key is `k8c.io/uses-ubuntuék22.04`. -/
theorem labelKey_eq_specLabelKey_witness :
    (∀ r : Char, unicode.MaxASCII < r.toNat → sampleCaseTable r ≠ ' ') ∧
    labelKey sampleCaseTable "Ubuntu É\u212A 22.04"
      = specLabelKey sampleCaseTable "Ubuntu É\u212A 22.04" ∧
    specLabelKey sampleCaseTable "Ubuntu É\u212A 22.04" = "k8c.io/uses-ubuntuék22.04" :=
  ⟨sampleCaseTable_ne_space,
    (labelKey_eq_specLabelKey sampleCaseTable sampleCaseTable_ne_space).1
      "Ubuntu É\u212A 22.04",
    by decide⟩

/-- C10: for every OS image string `s`, neither the derived OS name
`ToLower(ReplaceAll(s, " ", ""))` nor the label key built from it holds a space
character. The case table is assumed to map no rune above `MaxASCII` to a
space. -/
theorem nodeOS_no_space (t : Char → Char)
    (ht : ∀ r : Char, unicode.MaxASCII < r.toNat → t r ≠ ' ') (s : String) :
    ' ' ∉ (nodeOS t s).data ∧ ' ' ∉ (labelKey t s).data := by
  have h1 : ' ' ∉ (nodeOS t s).data := by
    rw [nodeOS_data]
    intro hmem
    obtain ⟨c, hc, hl⟩ := List.mem_map.1 hmem
    have hsp : c = ' ' := (unicode_ToLower_eq_space t ht c).1 hl
    rw [List.mem_filter] at hc
    simp [hsp] at hc
  refine ⟨h1, ?_⟩
  rw [labelKey_eq, String.data_append]
  intro hmem
  rcases List.mem_append.1 hmem with h | h
  · exact absurd h (by decide)
  · exact h1 h

/-- Witness of C10 at the sample case table and an OS image with spaces. -/
theorem nodeOS_no_space_witness :
    (∀ r : Char, unicode.MaxASCII < r.toNat → sampleCaseTable r ≠ ' ') ∧
    ' ' ∉ (nodeOS sampleCaseTable " Flatcar  Container Linux ").data ∧
    ' ' ∉ (labelKey sampleCaseTable " Flatcar  Container Linux ").data :=
  ⟨sampleCaseTable_ne_space,
    nodeOS_no_space sampleCaseTable sampleCaseTable_ne_space " Flatcar  Container Linux "⟩

section claims
variable {σ E : Type}

/-- C2: when the fetched node does not map the derived key to `"true"` and the
update succeeds, `Reconcile` returns the zero result with a nil error, and the
one node it passed to `Update` is the fetched node with only its labels changed:
the fetched labels (a nil map read as empty) with the derived key set to
`"true"`. In particular, for OS image `"CentOS Linux 8"` and empty labels the
submitted labels are exactly `{"k8c.io/uses-centoslinux8": "true"}`. -/
theorem Reconcile_adds_label (t : Char → Char) (api : APIErrors E) (r : NodeReconciler σ E)
    (st : σ) (req : Request) (node : Node)
    (hget : r.Client.Get st req.NamespacedName = .ok node)
    (hneed : mapIndex node.ObjectMeta.Labels (labelKey t node.Status.NodeInfo.OSImage)
      ≠ trueValue)
    (hupd : (r.Client.Update st (setOSLabel t node)).2 = none) :
    (Reconcile t api r st req).result = { Requeue := false, RequeueAfter := 0 } ∧
    (Reconcile t api r st req).err = none ∧
    (Reconcile t api r st req).state = (r.Client.Update st (setOSLabel t node)).1 ∧
    ∃ n m, (Reconcile t api r st req).updates = [n] ∧
      { n with ObjectMeta := { n.ObjectMeta with Labels := node.ObjectMeta.Labels } } = node ∧
      n.ObjectMeta.Labels = some m ∧
      (∀ k, m k = if k = labelKey t node.Status.NodeInfo.OSImage then some "true"
        else (node.ObjectMeta.Labels.getD emptyMap) k) ∧
      (node.Status.NodeInfo.OSImage = "CentOS Linux 8" →
        (∀ k, (node.ObjectMeta.Labels.getD emptyMap) k = none) →
        ∀ k, m k = if k = "k8c.io/uses-centoslinux8" then some "true" else none) := by
  rw [Reconcile_absent t api r st req node hget hneed]
  rcases hu : r.Client.Update st (setOSLabel t node) with ⟨st', oe⟩
  rw [hu] at hupd
  simp only at hupd
  subst hupd
  refine ⟨rfl, rfl, rfl, setOSLabel t node, _, rfl, setOSLabel_frame t node,
    setOSLabel_labels t node, ?_, ?_⟩
  · intro k
    rfl
  · intro himg hempty k
    have hk : labelKey t "CentOS Linux 8" = "k8c.io/uses-centoslinux8" := rfl
    simp only [mapAssign, himg, hk, hempty, trueValue]

/-- Witness of C2: the node `n1` reporting `"CentOS Linux 8"` with nil labels, in
the in-memory store. -/
theorem Reconcile_adds_label_witness :
    (Reconcile sampleCaseTable storeErrors storeReconciler
      (storeOf (mkNode "n1" "CentOS Linux 8" none)) (requestFor "n1")).result
        = { Requeue := false, RequeueAfter := 0 } ∧
    (Reconcile sampleCaseTable storeErrors storeReconciler
      (storeOf (mkNode "n1" "CentOS Linux 8" none)) (requestFor "n1")).err = none :=
  have h := Reconcile_adds_label sampleCaseTable storeErrors storeReconciler
    (storeOf (mkNode "n1" "CentOS Linux 8" none)) (requestFor "n1")
    (mkNode "n1" "CentOS Linux 8" none) rfl (by decide) rfl
  ⟨h.1, h.2.1⟩

/-- C3: when the fetched node already maps the derived key to `"true"`,
`Reconcile` returns the zero result with a nil error and calls `Update` not at
all, whatever `Update` would have returned; the cluster state is left as it
was. The key derived from `"Flatcar Container Linux by Kinvolk"` is
`"k8c.io/uses-flatcarcontainerlinuxbykinvolk"`. -/
theorem Reconcile_label_present (t : Char → Char) (api : APIErrors E)
    (r : NodeReconciler σ E) (st : σ) (req : Request) (node : Node)
    (hget : r.Client.Get st req.NamespacedName = .ok node)
    (hpresent : mapIndex node.ObjectMeta.Labels (labelKey t node.Status.NodeInfo.OSImage)
      = trueValue) :
    (Reconcile t api r st req).result = { Requeue := false, RequeueAfter := 0 } ∧
    (Reconcile t api r st req).err = none ∧
    (Reconcile t api r st req).updates = [] ∧
    (Reconcile t api r st req).state = st ∧
    labelKey t "Flatcar Container Linux by Kinvolk"
      = "k8c.io/uses-flatcarcontainerlinuxbykinvolk" := by
  rw [Reconcile_present t api r st req node hget hpresent]
  exact ⟨rfl, rfl, rfl, rfl, rfl⟩

/-- Witness of C3: the node `n2` reporting `"Flatcar Container Linux by Kinvolk"`
and already labelled, in a store whose writes would fail. -/
theorem Reconcile_label_present_witness :
    (Reconcile sampleCaseTable storeErrors storeReconciler
      { storeOf (mkNode "n2" "Flatcar Container Linux by Kinvolk" (some flatcarLabels)) with
        updateFault := some (.unavailable "down") } (requestFor "n2")).updates = [] :=
  (Reconcile_label_present sampleCaseTable storeErrors storeReconciler
    { storeOf (mkNode "n2" "Flatcar Container Linux by Kinvolk" (some flatcarLabels)) with
      updateFault := some (.unavailable "down") } (requestFor "n2")
    (mkNode "n2" "Flatcar Container Linux by Kinvolk" (some flatcarLabels)) rfl
    (by decide)).2.2.1

/-- C4: when the fetch fails with a not-found error, `Reconcile` returns the
zero result with a nil error and calls `Update` not at all. -/
theorem Reconcile_not_found (t : Char → Char) (api : APIErrors E) (r : NodeReconciler σ E)
    (st : σ) (req : Request) (e : E)
    (hget : r.Client.Get st req.NamespacedName = .error e)
    (hnf : api.IsNotFound e = true) :
    (Reconcile t api r st req).result = { Requeue := false, RequeueAfter := 0 } ∧
    (Reconcile t api r st req).err = none ∧
    (Reconcile t api r st req).updates = [] ∧
    (Reconcile t api r st req).state = st := by
  rw [Reconcile_get_error t api r st req e hget, if_pos hnf]
  exact ⟨rfl, rfl, rfl, rfl⟩

/-- Witness of C4: a request for a node the in-memory store does not hold. -/
theorem Reconcile_not_found_witness :
    (Reconcile sampleCaseTable storeErrors storeReconciler
      (storeOf (mkNode "n1" "CentOS Linux 8" none)) (requestFor "gone")).err = none ∧
    (Reconcile sampleCaseTable storeErrors storeReconciler
      (storeOf (mkNode "n1" "CentOS Linux 8" none)) (requestFor "gone")).updates = [] :=
  have h := Reconcile_not_found sampleCaseTable storeErrors storeReconciler
    (storeOf (mkNode "n1" "CentOS Linux 8" none)) (requestFor "gone")
    (.notFound "gone") rfl rfl
  ⟨h.2.1, h.2.2.1⟩

/-- C5: when the fetched node needs the label and the update fails with a
conflict error or with a not-found error, `Reconcile` returns `Requeue = true`
with a nil error. -/
theorem Reconcile_requeue (t : Char → Char) (api : APIErrors E) (r : NodeReconciler σ E)
    (st : σ) (req : Request) (node : Node) (e : E)
    (hget : r.Client.Get st req.NamespacedName = .ok node)
    (hneed : mapIndex node.ObjectMeta.Labels (labelKey t node.Status.NodeInfo.OSImage)
      ≠ trueValue)
    (hupd : (r.Client.Update st (setOSLabel t node)).2 = some e)
    (hkind : api.IsConflict e = true ∨ api.IsNotFound e = true) :
    (Reconcile t api r st req).result.Requeue = true ∧
    (Reconcile t api r st req).err = none ∧
    (Reconcile t api r st req).updates = [setOSLabel t node] := by
  rw [Reconcile_absent t api r st req node hget hneed]
  rcases hu : r.Client.Update st (setOSLabel t node) with ⟨st', oe⟩
  rw [hu] at hupd
  simp only at hupd
  subst hupd
  simp only
  by_cases hc : api.IsConflict e = true
  · rw [if_pos hc]; exact ⟨rfl, rfl, rfl⟩
  · have hnf : api.IsNotFound e = true := hkind.resolve_left hc
    rw [if_neg hc, if_pos hnf]; exact ⟨rfl, rfl, rfl⟩

/-- Witness of C5: the node `n1` in a store whose write fails with a conflict. -/
theorem Reconcile_requeue_witness :
    (Reconcile sampleCaseTable storeErrors storeReconciler
      { storeOf (mkNode "n1" "CentOS Linux 8" none) with
        updateFault := some (.conflict "n1") } (requestFor "n1")).result.Requeue = true ∧
    (Reconcile sampleCaseTable storeErrors storeReconciler
      { storeOf (mkNode "n1" "CentOS Linux 8" none) with
        updateFault := some (.conflict "n1") } (requestFor "n1")).err = none :=
  have h := Reconcile_requeue sampleCaseTable storeErrors storeReconciler
    { storeOf (mkNode "n1" "CentOS Linux 8" none) with
      updateFault := some (.conflict "n1") } (requestFor "n1")
    (mkNode "n1" "CentOS Linux 8" none) (.conflict "n1") rfl (by decide) rfl (Or.inl rfl)
  ⟨h.1, h.2.1⟩

/-- C6: `Reconcile` returns the error `e` exactly when the fetch fails with `e`
and `e` is not a not-found error, or the node is fetched, lacks the label, the
update is issued and fails with `e`, and `e` is neither a conflict nor a
not-found error; in every other case the returned error is nil. Whenever the
returned error is not nil the result is the zero result, which asks for no
requeue. -/
theorem Reconcile_err_iff (t : Char → Char) (api : APIErrors E) (r : NodeReconciler σ E)
    (st : σ) (req : Request) (e : E) :
    ((Reconcile t api r st req).err = some e ↔
      (r.Client.Get st req.NamespacedName = .error e ∧ api.IsNotFound e = false) ∨
      (∃ node, r.Client.Get st req.NamespacedName = .ok node ∧
        mapIndex node.ObjectMeta.Labels (labelKey t node.Status.NodeInfo.OSImage) ≠ trueValue ∧
        (Reconcile t api r st req).updates = [setOSLabel t node] ∧
        (r.Client.Update st (setOSLabel t node)).2 = some e ∧
        api.IsConflict e = false ∧ api.IsNotFound e = false)) ∧
    ((Reconcile t api r st req).err ≠ none →
      (Reconcile t api r st req).result = { Requeue := false, RequeueAfter := 0 }) := by
  rcases hg : r.Client.Get st req.NamespacedName with e' | node
  · rw [Reconcile_get_error t api r st req e' hg]
    by_cases hnf : api.IsNotFound e' = true
    · rw [if_pos hnf]
      refine ⟨⟨fun h => by simp at h, ?_⟩, fun h => absurd rfl h⟩
      rintro (⟨h1, h2⟩ | ⟨node, h1, _⟩)
      · injection h1 with h1
        rw [h1, h2] at hnf
        exact absurd hnf (by decide)
      · exact absurd h1 (by simp)
    · rw [if_neg hnf]
      refine ⟨⟨?_, ?_⟩, fun _ => rfl⟩
      · intro h
        simp only [Option.some.injEq] at h
        subst h
        exact Or.inl ⟨rfl, by simpa using hnf⟩
      · rintro (⟨h1, _⟩ | ⟨node, h1, _⟩)
        · injection h1 with h1
          rw [h1]
        · exact absurd h1 (by simp)
  · by_cases hp : mapIndex node.ObjectMeta.Labels (labelKey t node.Status.NodeInfo.OSImage)
        = trueValue
    · rw [Reconcile_present t api r st req node hg hp]
      refine ⟨⟨fun h => by simp at h, ?_⟩, fun h => absurd rfl h⟩
      rintro (⟨h1, _⟩ | ⟨node', h1, h2, _⟩)
      · exact absurd h1 (by simp)
      · injection h1 with h1
        subst h1
        exact absurd hp h2
    · rw [Reconcile_absent t api r st req node hg hp]
      rcases hu : r.Client.Update st (setOSLabel t node) with ⟨st', oe⟩
      cases oe with
      | none =>
        refine ⟨⟨fun h => by simp at h, ?_⟩, fun h => absurd rfl h⟩
        rintro (⟨h1, _⟩ | ⟨node', h1, _, _, h4, _⟩)
        · exact absurd h1 (by simp)
        · injection h1 with h1
          subst h1
          rw [hu] at h4
          exact absurd h4 (by simp)
      | some e' =>
        simp only
        by_cases hc : api.IsConflict e' = true
        · rw [if_pos hc]
          refine ⟨⟨fun h => by simp at h, ?_⟩, fun h => absurd rfl h⟩
          rintro (⟨h1, _⟩ | ⟨node', h1, _, _, h4, h5, _⟩)
          · exact absurd h1 (by simp)
          · injection h1 with h1
            subst h1
            rw [hu] at h4
            simp only [Option.some.injEq] at h4
            subst h4
            rw [h5] at hc
            exact absurd hc (by decide)
        · rw [if_neg hc]
          by_cases hnf : api.IsNotFound e' = true
          · rw [if_pos hnf]
            refine ⟨⟨fun h => by simp at h, ?_⟩, fun h => absurd rfl h⟩
            rintro (⟨h1, _⟩ | ⟨node', h1, _, _, h4, _, h6⟩)
            · exact absurd h1 (by simp)
            · injection h1 with h1
              subst h1
              rw [hu] at h4
              simp only [Option.some.injEq] at h4
              subst h4
              rw [h6] at hnf
              exact absurd hnf (by decide)
          · rw [if_neg hnf]
            refine ⟨⟨?_, ?_⟩, fun _ => rfl⟩
            · intro h
              simp only [Option.some.injEq] at h
              subst h
              exact Or.inr ⟨node, rfl, hp, rfl, by rw [hu], by simpa using hc, by simpa using hnf⟩
            · rintro (⟨h1, _⟩ | ⟨node', h1, _, _, h4, _⟩)
              · exact absurd h1 (by simp)
              · injection h1 with h1
                subst h1
                rw [hu] at h4
                simp only [Option.some.injEq] at h4
                rw [h4]

/-- Scenario for C6: a write rejected as invalid is returned as it is, with no
requeue. -/
theorem Reconcile_err_iff_witness :
    (Reconcile sampleCaseTable storeErrors storeReconciler
      { storeOf (mkNode "n1" "CentOS Linux 8" none) with
        updateFault := some (.invalid "metadata.labels") } (requestFor "n1")).err
      = some (.invalid "metadata.labels") :=
  ((Reconcile_err_iff sampleCaseTable storeErrors storeReconciler
    { storeOf (mkNode "n1" "CentOS Linux 8" none) with
      updateFault := some (.invalid "metadata.labels") } (requestFor "n1")
    (.invalid "metadata.labels")).1).2
    (Or.inr ⟨mkNode "n1" "CentOS Linux 8" none, rfl, by decide, rfl, rfl, rfl, rfl⟩)

/-- C7, as amended: over a client whose fetch returns `node`, two calls of
`Reconcile` in succession behave as follows. If `node` already maps the derived
key to `"true"`, neither call issues an update. If it does not, and the update
succeeds and the next fetch returns a node with the labels and the OS image
last written, the first call issues exactly one update and the second none. In
both cases the second call leaves the cluster state, and so the label set a
fetch returns, as the first call left it. -/
theorem Reconcile_twice (t : Char → Char) (api : APIErrors E) (r : NodeReconciler σ E)
    (st : σ) (req : Request) (node : Node)
    (hget : r.Client.Get st req.NamespacedName = .ok node) :
    (mapIndex node.ObjectMeta.Labels (labelKey t node.Status.NodeInfo.OSImage) = trueValue →
      (Reconcile t api r st req).updates = [] ∧
      (Reconcile t api r (Reconcile t api r st req).state req).updates = [] ∧
      (Reconcile t api r (Reconcile t api r st req).state req).state
        = (Reconcile t api r st req).state ∧
      r.Client.Get (Reconcile t api r (Reconcile t api r st req).state req).state
          req.NamespacedName
        = r.Client.Get (Reconcile t api r st req).state req.NamespacedName) ∧
    (mapIndex node.ObjectMeta.Labels (labelKey t node.Status.NodeInfo.OSImage) ≠ trueValue →
      ∀ n2 : Node, (r.Client.Update st (setOSLabel t node)).2 = none →
      r.Client.Get (r.Client.Update st (setOSLabel t node)).1 req.NamespacedName = .ok n2 →
      n2.ObjectMeta.Labels = (setOSLabel t node).ObjectMeta.Labels →
      n2.Status.NodeInfo.OSImage = node.Status.NodeInfo.OSImage →
      (Reconcile t api r st req).updates = [setOSLabel t node] ∧
      (Reconcile t api r (Reconcile t api r st req).state req).updates = [] ∧
      (Reconcile t api r (Reconcile t api r st req).state req).state
        = (Reconcile t api r st req).state ∧
      r.Client.Get (Reconcile t api r (Reconcile t api r st req).state req).state
          req.NamespacedName
        = r.Client.Get (Reconcile t api r st req).state req.NamespacedName) := by
  constructor
  · intro hp
    have h1 := Reconcile_present t api r st req node hget hp
    have hst : (Reconcile t api r st req).state = st := by rw [h1]
    rw [hst, h1]
    exact ⟨rfl, rfl, rfl, rfl⟩
  · intro hn n2 hupd hget2 hlab himg
    have h1 := Reconcile_absent t api r st req node hget hn
    rcases hu : r.Client.Update st (setOSLabel t node) with ⟨st', oe⟩
    rw [hu] at hupd hget2 h1
    simp only at hupd hget2 h1
    subst hupd
    simp only at h1
    have hp2 : mapIndex n2.ObjectMeta.Labels (labelKey t n2.Status.NodeInfo.OSImage)
        = trueValue := by
      rw [hlab, himg]
      exact mapIndex_setOSLabel t node
    have h2 := Reconcile_present t api r st' req n2 hget2 hp2
    have hst : (Reconcile t api r st req).state = st' := by rw [h1]
    have hup : (Reconcile t api r st req).updates = [setOSLabel t node] := by rw [h1]
    rw [hst, hup, h2]
    exact ⟨rfl, rfl, rfl, rfl⟩

/-- Witness of the amended C7: the node `n1` reporting `"CentOS Linux 8"`,
unlabelled, in the in-memory store; the first call issues one update, the second
none. -/
theorem Reconcile_twice_witness :
    (Reconcile sampleCaseTable storeErrors storeReconciler
      (storeOf (mkNode "n1" "CentOS Linux 8" none)) (requestFor "n1")).updates
      = [setOSLabel sampleCaseTable (mkNode "n1" "CentOS Linux 8" none)] ∧
    (Reconcile sampleCaseTable storeErrors storeReconciler
      (Reconcile sampleCaseTable storeErrors storeReconciler
        (storeOf (mkNode "n1" "CentOS Linux 8" none)) (requestFor "n1")).state
      (requestFor "n1")).updates = [] :=
  have h := (Reconcile_twice sampleCaseTable storeErrors storeReconciler
    (storeOf (mkNode "n1" "CentOS Linux 8" none)) (requestFor "n1")
    (mkNode "n1" "CentOS Linux 8" none) rfl).2 (by decide)
    (setOSLabel sampleCaseTable (mkNode "n1" "CentOS Linux 8" none)) rfl rfl rfl rfl
  ⟨h.1, h.2.1⟩

/-- C7 as stated fails: the in-memory store holding the node `n2`, which reports
`"Flatcar Container Linux by Kinvolk"` and already carries the derived label,
accepts every write to `n2` and returns it at the next fetch, yet the first call
of `Reconcile` issues no update call, not exactly one. -/
theorem Reconcile_twice_counterexample :
    storeClient.Get
        (storeOf (mkNode "n2" "Flatcar Container Linux by Kinvolk" (some flatcarLabels)))
        (requestFor "n2").NamespacedName
      = .ok (mkNode "n2" "Flatcar Container Linux by Kinvolk" (some flatcarLabels)) ∧
    (∀ n : Node, n.ObjectMeta.Name = "n2" →
      (storeClient.Update
        (storeOf (mkNode "n2" "Flatcar Container Linux by Kinvolk" (some flatcarLabels)))
        n).2 = none ∧
      storeClient.Get (storeClient.Update
        (storeOf (mkNode "n2" "Flatcar Container Linux by Kinvolk" (some flatcarLabels)))
        n).1 (requestFor "n2").NamespacedName = .ok n) ∧
    (Reconcile sampleCaseTable storeErrors storeReconciler
      (storeOf (mkNode "n2" "Flatcar Container Linux by Kinvolk" (some flatcarLabels)))
      (requestFor "n2")).updates = [] ∧
    (Reconcile sampleCaseTable storeErrors storeReconciler
      (storeOf (mkNode "n2" "Flatcar Container Linux by Kinvolk" (some flatcarLabels)))
      (requestFor "n2")).updates.length ≠ 1 := by
  refine ⟨rfl, ?_, rfl, by decide⟩
  intro n hn
  simp [storeClient, storeOf, mkNode, requestFor, hn]

/-- C8 fails on the code: the key derived from `"Debian GNU/Linux 11 (bullseye)"`
holds a second slash and parentheses, the key derived from the empty OS image
has the name part `uses-`, which ends in a hyphen, and the key derived from an
OS image of 59 letters has a name part of 64 characters; none of them is a
valid label key, whereas the keys derived from `"Ubuntu 22.04.1 LTS"` and from
an OS image of 58 letters are. -/
theorem labelKey_not_always_valid (t : Char → Char) :
    labelKey t "Debian GNU/Linux 11 (bullseye)" = "k8c.io/uses-debiangnu/linux11(bullseye)" ∧
    validLabelKey (labelKey t "Debian GNU/Linux 11 (bullseye)") = false ∧
    labelKey t "" = "k8c.io/uses-" ∧
    validLabelKey (labelKey t "") = false ∧
    ((labelKey t "Enterprise Linux Server And Extended Lifecycle Support For Clusters").data.drop
      "k8c.io/".data.length).length = 64 ∧
    validLabelKey
      (labelKey t "Enterprise Linux Server And Extended Lifecycle Support For Clusters")
      = false ∧
    validLabelKey
      (labelKey t "Enterprise Linux Server And Extended Lifecycle Support For Cluster")
      = true ∧
    validLabelKey (labelKey t "Ubuntu 22.04.1 LTS") = true :=
  ⟨rfl, rfl, rfl, rfl, rfl, rfl, rfl, rfl⟩

/-- C9: every node `Reconcile` passes to `Update` is the fetched node with only
its labels changed, every key of the fetched labels is still present in it, and
its value is unchanged unless it is the derived key. Consequently, if the
fetched node maps the key derived from an earlier OS image `s1` to `"true"`,
then any node passed to `Update` maps both that key and the key derived from
the current OS image to `"true"`, and if no update is issued the fetched node
already maps both to `"true"`. -/
theorem Reconcile_keeps_labels (t : Char → Char) (api : APIErrors E) (r : NodeReconciler σ E)
    (st : σ) (req : Request) (node : Node)
    (hget : r.Client.Get st req.NamespacedName = .ok node) :
    (∀ n ∈ (Reconcile t api r st req).updates,
      { n with ObjectMeta := { n.ObjectMeta with Labels := node.ObjectMeta.Labels } } = node ∧
      ∀ k v, (node.ObjectMeta.Labels.getD emptyMap) k = some v →
        ∃ v', (n.ObjectMeta.Labels.getD emptyMap) k = some v' ∧
          (k ≠ labelKey t node.Status.NodeInfo.OSImage → v' = v)) ∧
    (∀ s1 : String, mapIndex node.ObjectMeta.Labels (labelKey t s1) = trueValue →
      (∀ n ∈ (Reconcile t api r st req).updates,
        mapIndex n.ObjectMeta.Labels (labelKey t s1) = trueValue ∧
        mapIndex n.ObjectMeta.Labels (labelKey t node.Status.NodeInfo.OSImage) = trueValue) ∧
      ((Reconcile t api r st req).updates = [] →
        mapIndex node.ObjectMeta.Labels (labelKey t node.Status.NodeInfo.OSImage)
          = trueValue)) := by
  by_cases hp : mapIndex node.ObjectMeta.Labels (labelKey t node.Status.NodeInfo.OSImage)
      = trueValue
  · rw [Reconcile_present t api r st req node hget hp]
    refine ⟨fun n hn => absurd hn (by simp), fun s1 _ => ⟨fun n hn => absurd hn (by simp), ?_⟩⟩
    intro _
    exact hp
  · have hupdates : (Reconcile t api r st req).updates = [setOSLabel t node] := by
      rw [Reconcile_absent t api r st req node hget hp]
      rcases r.Client.Update st (setOSLabel t node) with ⟨st', oe⟩
      cases oe with
      | none => rfl
      | some e =>
        simp only
        split_ifs <;> rfl
    rw [hupdates]
    refine ⟨?_, ?_⟩
    · intro n hn
      rw [List.mem_singleton] at hn
      subst hn
      refine ⟨setOSLabel_frame t node, ?_⟩
      intro k v hkv
      rw [setOSLabel_labels]
      by_cases hk : k = labelKey t node.Status.NodeInfo.OSImage
      · exact ⟨trueValue, by simp [mapAssign, hk], fun h => absurd hk h⟩
      · exact ⟨v, by simp [mapAssign, hk, hkv], fun _ => rfl⟩
    · intro s1 hs1
      refine ⟨?_, fun h => absurd h (by simp)⟩
      intro n hn
      rw [List.mem_singleton] at hn
      subst hn
      refine ⟨?_, mapIndex_setOSLabel t node⟩
      by_cases hk : labelKey t s1 = labelKey t node.Status.NodeInfo.OSImage
      · rw [hk]
        exact mapIndex_setOSLabel t node
      · rw [mapIndex_setOSLabel_of_ne t node _ hk]
        exact hs1

/-- Witness of C9: the node `n3` labelled for `"Flatcar Container Linux by
Kinvolk"` and now reporting `"Ubuntu 22.04.1 LTS"`; the node passed to `Update`
carries both OS labels. -/
theorem Reconcile_keeps_labels_witness :
    mapIndex (setOSLabel sampleCaseTable
        (mkNode "n3" "Ubuntu 22.04.1 LTS" (some flatcarLabels))).ObjectMeta.Labels
      (labelKey sampleCaseTable "Flatcar Container Linux by Kinvolk") = trueValue ∧
    mapIndex (setOSLabel sampleCaseTable
        (mkNode "n3" "Ubuntu 22.04.1 LTS" (some flatcarLabels))).ObjectMeta.Labels
      (labelKey sampleCaseTable "Ubuntu 22.04.1 LTS") = trueValue :=
  ((Reconcile_keeps_labels sampleCaseTable storeErrors storeReconciler
    (storeOf (mkNode "n3" "Ubuntu 22.04.1 LTS" (some flatcarLabels))) (requestFor "n3")
    (mkNode "n3" "Ubuntu 22.04.1 LTS" (some flatcarLabels)) rfl).2
    "Flatcar Container Linux by Kinvolk" (by decide)).1
    (setOSLabel sampleCaseTable (mkNode "n3" "Ubuntu 22.04.1 LTS" (some flatcarLabels)))
    (List.Mem.head [])

end claims

end NodeLabelController
